import Mathlib

/-!
Verification of the tinysh command-pipeline engine against its design
specification.  The C sources (`tinysh.c`, in the older `src/` variant and the
newer top-level variant) are shallowly embedded below: pure scanning functions
become Lean functions on `List String` and `List Char`, and the process- and
descriptor-manipulating handlers become explicit traces of the events they
perform, with process-termination state and the `execvp` outcome supplied as
explicit parameters.
-/

namespace Tinysh

/-- Operator tokens recognized by `is_special_feature` and by the head/tail
splitting loop of `special_command`: `">>"`, `">"` and `"|"`. -/
def isOperator (t : String) : Bool :=
  t = ">>" || t = ">" || t = "|"

/-- Embedding of `is_special_feature` (tinysh.c): walk the argument vector left
to right; return 1 on `">>"` (append), 2 on `">"` (overwrite), 3 on `"|"`
(pipe), and 0 when no operator token occurs. -/
def is_special_feature : List String → Nat
  | [] => 0
  | t :: rest =>
    if t = ">>" then 1
    else if t = ">" then 2
    else if t = "|" then 3
    else is_special_feature rest

/-- Code of the first operator, as `is_special_feature` reports it:
`">>"` ↦ 1, `">"` ↦ 2, `"|"` ↦ 3. -/
def featureCode (t : String) : Nat :=
  if t = ">>" then 1 else if t = ">" then 2 else 3

/-- Embedding of the head-collecting loop of `special_command` (tinysh.c):
tokens are copied into `head` until the first token equal to `"|"`, `">"` or
`">>"` is reached.  (The C loop reads past the end of the vector when no
operator is present; callers only invoke it after `is_special_feature`
reported an operator, and the `[]` case is the off-the-end reading.) -/
def split_head : List String → List String
  | [] => []
  | t :: rest =>
    if t = "|" then []
    else if t = ">" then []
    else if t = ">>" then []
    else t :: split_head rest

/-- Embedding of the tail-collecting loop of `special_command` (tinysh.c):
after skipping the first operator token, every remaining token is copied
into `tail`. -/
def split_tail : List String → List String
  | [] => []
  | t :: rest =>
    if t = "|" then rest
    else if t = ">" then rest
    else if t = ">>" then rest
    else split_tail rest

lemma isOperator_eq_true_iff (t : String) :
    isOperator t = true ↔ t = ">>" ∨ t = ">" ∨ t = "|" := by
  simp [isOperator, or_assoc]

lemma isOperator_eq_false_iff (t : String) :
    isOperator t = false ↔ t ≠ ">>" ∧ t ≠ ">" ∧ t ≠ "|" := by
  simp [isOperator, and_assoc]

lemma split_head_cons_op {t : String} (rest : List String) (h : isOperator t = true) :
    split_head (t :: rest) = [] := by
  rw [isOperator_eq_true_iff] at h
  rcases h with h | h | h <;> simp [split_head, h]

lemma split_head_cons_not_op {t : String} (rest : List String) (h : isOperator t = false) :
    split_head (t :: rest) = t :: split_head rest := by
  rw [isOperator_eq_false_iff] at h
  simp [split_head, h.1, h.2.1, h.2.2]

lemma split_tail_cons_op {t : String} (rest : List String) (h : isOperator t = true) :
    split_tail (t :: rest) = rest := by
  rw [isOperator_eq_true_iff] at h
  rcases h with h | h | h <;> simp [split_tail, h]

lemma split_tail_cons_not_op {t : String} (rest : List String) (h : isOperator t = false) :
    split_tail (t :: rest) = split_tail rest := by
  rw [isOperator_eq_false_iff] at h
  simp [split_tail, h.1, h.2.1, h.2.2]

lemma is_special_feature_cons_not_op {t : String} (rest : List String)
    (h : isOperator t = false) :
    is_special_feature (t :: rest) = is_special_feature rest := by
  rw [isOperator_eq_false_iff] at h
  simp [is_special_feature, h.1, h.2.1, h.2.2]

lemma is_special_feature_cons_op {t : String} (rest : List String)
    (h : isOperator t = true) :
    is_special_feature (t :: rest) = featureCode t := by
  rw [isOperator_eq_true_iff] at h
  rcases h with h | h | h <;> simp [is_special_feature, featureCode, h]

/-- On a vector that splits as `pre ++ op :: post` with no operator in `pre`,
the classifier reports the code of `op`. -/
lemma is_special_feature_append (pre : List String) (op : String) (post : List String)
    (hpre : ∀ t ∈ pre, isOperator t = false) (hop : isOperator op = true) :
    is_special_feature (pre ++ op :: post) = featureCode op := by
  induction pre with
  | nil => simpa using is_special_feature_cons_op post hop
  | cons t rest ih =>
    have ht : isOperator t = false := hpre t (List.mem_cons_self t rest)
    rw [List.cons_append, is_special_feature_cons_not_op _ ht]
    exact ih fun u hu => hpre u (List.mem_cons_of_mem _ hu)

lemma featureCode_pos (t : String) : 0 < featureCode t := by
  unfold featureCode
  split
  · norm_num
  · split <;> norm_num

lemma is_special_feature_eq_zero_iff (cmd : List String) :
    is_special_feature cmd = 0 ↔ ∀ t ∈ cmd, isOperator t = false := by
  induction cmd with
  | nil => simp [is_special_feature]
  | cons t rest ih =>
    cases ht : isOperator t with
    | true =>
      rw [is_special_feature_cons_op rest ht]
      constructor
      · intro h
        exact absurd h.symm (Nat.ne_of_lt (featureCode_pos t))
      · intro h
        have := h t (List.mem_cons_self t rest)
        rw [ht] at this
        cases this
    | false =>
      rw [is_special_feature_cons_not_op rest ht, ih]
      constructor
      · intro h u hu
        rcases List.mem_cons.mp hu with rfl | hu'
        · exact ht
        · exact h u hu'
      · intro h u hu
        exact h u (List.mem_cons_of_mem _ hu)

lemma split_head_append (pre : List String) (op : String) (post : List String)
    (hpre : ∀ t ∈ pre, isOperator t = false) (hop : isOperator op = true) :
    split_head (pre ++ op :: post) = pre := by
  induction pre with
  | nil => simpa using split_head_cons_op post hop
  | cons t rest ih =>
    have ht : isOperator t = false := hpre t (List.mem_cons_self t rest)
    rw [List.cons_append, split_head_cons_not_op _ ht]
    rw [ih fun u hu => hpre u (List.mem_cons_of_mem _ hu)]

lemma split_tail_append (pre : List String) (op : String) (post : List String)
    (hpre : ∀ t ∈ pre, isOperator t = false) (hop : isOperator op = true) :
    split_tail (pre ++ op :: post) = post := by
  induction pre with
  | nil => simpa using split_tail_cons_op post hop
  | cons t rest ih =>
    have ht : isOperator t = false := hpre t (List.mem_cons_self t rest)
    rw [List.cons_append, split_tail_cons_not_op _ ht]
    exact ih fun u hu => hpre u (List.mem_cons_of_mem _ hu)

/-- C2: On any argument vector containing an operator — written as
`pre ++ op :: post` with `op` the first (leftmost) operator token — the
`special_command` splitting loops produce `head = pre` (all tokens strictly
before the operator) and `tail = post` (all tokens strictly after it), the
operator is excluded from both sides, and `head ++ [op] ++ tail` reconstructs
the original vector; in particular splitting `["a", "|", "b", "c"]` gives
head `["a"]` and tail `["b", "c"]`. -/
theorem special_command_split_correct :
    (∀ (pre : List String) (op : String) (post : List String),
      (∀ t ∈ pre, isOperator t = false) → isOperator op = true →
        split_head (pre ++ op :: post) = pre ∧
        split_tail (pre ++ op :: post) = post ∧
        split_head (pre ++ op :: post) ++ op :: split_tail (pre ++ op :: post) =
          pre ++ op :: post) ∧
    split_head ["a", "|", "b", "c"] = ["a"] ∧
    split_tail ["a", "|", "b", "c"] = ["b", "c"] := by
  refine ⟨fun pre op post hpre hop => ?_, by decide, by decide⟩
  have h1 := split_head_append pre op post hpre hop
  have h2 := split_tail_append pre op post hpre hop
  exact ⟨h1, h2, by rw [h1, h2]⟩

/-- Witness for C2 at the concrete vector `["a", "|", "b", "c"]`. -/
theorem special_command_split_correct_witness :
    split_head (["a"] ++ "|" :: ["b", "c"]) = ["a"] ∧
    split_tail (["a"] ++ "|" :: ["b", "c"]) = ["b", "c"] ∧
    split_head (["a"] ++ "|" :: ["b", "c"]) ++
      "|" :: split_tail (["a"] ++ "|" :: ["b", "c"]) = ["a"] ++ "|" :: ["b", "c"] :=
  special_command_split_correct.1 ["a"] "|" ["b", "c"] (by decide)
    (by decide)

/-- C4: the classifier returns 0 (None) exactly when no token equals `">>"`,
`">"` or `"|"`; otherwise it returns the classification of the leftmost
operator token (1 = Append for `">>"`, 2 = Overwrite for `">"`, 3 = Pipe for
`"|"`); on the concrete examples, `["ls", "-la"]` classifies as 0,
`["a", "|", "b"]` as 3 (Pipe) and `["a", ">>", "f"]` as 1 (Append). -/
theorem is_special_feature_correct :
    (∀ cmd : List String,
      (is_special_feature cmd = 0 ↔ ∀ t ∈ cmd, isOperator t = false)) ∧
    (∀ (pre : List String) (op : String) (post : List String),
      (∀ t ∈ pre, isOperator t = false) → isOperator op = true →
        is_special_feature (pre ++ op :: post) = featureCode op) ∧
    is_special_feature ["ls", "-la"] = 0 ∧
    is_special_feature ["a", "|", "b"] = 3 ∧
    is_special_feature ["a", ">>", "f"] = 1 := by
  refine ⟨is_special_feature_eq_zero_iff, is_special_feature_append, ?_, ?_, ?_⟩
  · decide
  · decide
  · decide

/-- Witness for C4 at the concrete vector `["a", ">>", "f"]`. -/
theorem is_special_feature_correct_witness :
    is_special_feature (["a"] ++ ">>" :: ["f"]) = featureCode ">>" :=
  is_special_feature_correct.2.1 ["a"] ">>" ["f"] (by decide) (by decide)

/-- Delimiter string used by `driver` (tinysh.c): space, tab, newline. -/
def shellDelim : List Char := " \t\n".toList

/-- Embedding of `tokenizer` (tinysh.c): the C code repeatedly calls
`strtok_r` on a duplicate of the input line, which skips any delimiter
characters and yields the next maximal run of non-delimiter characters;
the loop collects the yielded tokens in order.  Here the scan is written
left to right with `cur` holding the non-delimiter run currently being
read; reaching a delimiter (or the end of the line) emits `cur` when it is
nonempty, exactly as `strtok_r` terminates a token there. -/
def tokensAux (d : List Char) : List Char → List Char → List (List Char)
  | [], cur => if cur.isEmpty then [] else [cur]
  | c :: s, cur =>
    if c ∈ d then
      if cur.isEmpty then tokensAux d s [] else cur :: tokensAux d s []
    else tokensAux d s (cur ++ [c])

/-- The token list `tokenizer` returns (`NULL`/empty when no token found). -/
def tokenizer (input : List Char) (d : List Char) : List (List Char) :=
  tokensAux d input []

/-- Specification-side reading of the tokenizer contract: the ordered list of
maximal non-delimiter substrings of the line, i.e. split the line at every
delimiter character and keep the nonempty chunks. -/
def maximalRuns (d : List Char) (s : List Char) : List (List Char) :=
  (s.splitOnP fun c => decide (c ∈ d)).filter fun t => !t.isEmpty

lemma tokensAux_eq_filter (d : List Char) (s cur : List Char) :
    tokensAux d s cur =
      ((cur ++ (s.splitOnP fun c => decide (c ∈ d)).headD []) ::
        (s.splitOnP fun c => decide (c ∈ d)).tail).filter fun t => !t.isEmpty := by
  induction s generalizing cur with
  | nil =>
    simp only [List.splitOnP_nil, List.headD_cons, List.tail_cons, List.append_nil]
    by_cases hc : cur.isEmpty
    · simp [tokensAux, hc]
    · simp [tokensAux, hc]
  | cons c s ih =>
    obtain ⟨h0, t0, hsplit⟩ :
        ∃ h0 t0, (s.splitOnP fun c => decide (c ∈ d)) = h0 :: t0 :=
      List.exists_cons_of_ne_nil (List.splitOnP_ne_nil _ s)
    by_cases hc : c ∈ d
    · have hp : decide (c ∈ d) = true := decide_eq_true hc
      rw [List.splitOnP_cons]
      simp only [hp, if_true]
      have htok : tokensAux d s [] =
          (((s.splitOnP fun c => decide (c ∈ d)).headD []) ::
            (s.splitOnP fun c => decide (c ∈ d)).tail).filter fun t => !t.isEmpty := by
        simpa using ih []
      rw [hsplit] at htok
      simp only [List.headD_cons, List.tail_cons] at htok
      by_cases hcur : cur.isEmpty
      · simp [tokensAux, hc, hcur, htok, hsplit, List.filter]
      · simp [tokensAux, hc, hcur, htok, hsplit, List.filter]
    · have hp : decide (c ∈ d) = false := decide_eq_false hc
      rw [List.splitOnP_cons, if_neg (by simp [hp])]
      rw [hsplit]
      simp only [List.modifyHead_cons, List.headD_cons, List.tail_cons]
      have := ih (cur ++ [c])
      rw [hsplit] at this
      simp only [List.headD_cons, List.tail_cons] at this
      have hstep : tokensAux d (c :: s) cur = tokensAux d s (cur ++ [c]) := by
        simp [tokensAux, hc]
      rw [hstep, this, List.append_assoc, List.singleton_append]

/-- Actions one iteration of the `driver` loop can take once the input line
has been tokenized: reprompt on an empty command list, handle one of the
builtins, or hand the command list to `exec_dispatch`. -/
inductive DriverAction
  | reprompt
  | exitShell
  | setVerbose
  | setBrief
  | pwdBuiltin (cmds : List String)
  | cdBuiltin (cmds : List String)
  | dispatch (cmds : List String)
deriving DecidableEq

/-- Embedding of the dispatch portion of one `driver` iteration (tinysh.c):
tokenize the line; when no command results, `continue` to the next prompt;
otherwise compare the first token against the builtins and otherwise call
`exec_dispatch`. -/
def driver_dispatch : List String → DriverAction
  | [] => .reprompt
  | c :: rest =>
    if c = "exit" then .exitShell
    else if c = "verbose" then .setVerbose
    else if c = "brief" then .setBrief
    else if c = "pwd" then .pwdBuiltin (c :: rest)
    else if c = "cd" then .cdBuiltin (c :: rest)
    else .dispatch (c :: rest)

/-- One `driver` iteration on an input line: tokenize, then select. -/
def driver_step (input : List Char) : DriverAction :=
  driver_dispatch ((tokenizer input shellDelim).map fun t => String.mk t)

/-- Among the driver actions, only `exec_dispatch` forks a child process;
`continue` (reprompt) and the builtins spawn nothing. -/
def spawnsProcess : DriverAction → Bool
  | .dispatch _ => true
  | _ => false

lemma tokenizer_all_delim (d : List Char) (s : List Char) (h : ∀ c ∈ s, c ∈ d) :
    tokenizer s d = [] := by
  induction s with
  | nil => simp [tokenizer, tokensAux]
  | cons c s ih =>
    have hc : c ∈ d := h c (List.mem_cons_self c s)
    have hrest : tokenizer s d = [] := ih fun u hu => h u (List.mem_cons_of_mem _ hu)
    simpa [tokenizer, tokensAux, hc] using hrest

/-- C3: the tokenizer returns exactly the ordered list of maximal
non-delimiter substrings of the input line (formally, the nonempty chunks
obtained by splitting the line at every delimiter character);
`tokenize("  ls  -la ", " \t\n")` gives `["ls", "-la"]`; and on an empty or
all-delimiter line it returns the empty vector, upon which the driver
reprompts without spawning any process. -/
theorem tokenizer_correct :
    (∀ s d : List Char, tokenizer s d = maximalRuns d s) ∧
    tokenizer "  ls  -la ".toList " \t\n".toList = ["ls".toList, "-la".toList] ∧
    (∀ s : List Char, (∀ c ∈ s, c ∈ shellDelim) →
      tokenizer s shellDelim = [] ∧
      driver_step s = .reprompt ∧
      spawnsProcess (driver_step s) = false) := by
  refine ⟨fun s d => ?_, by decide, fun s h => ?_⟩
  · obtain ⟨h0, t0, hsplit⟩ :
        ∃ h0 t0, (s.splitOnP fun c => decide (c ∈ d)) = h0 :: t0 :=
      List.exists_cons_of_ne_nil (List.splitOnP_ne_nil _ s)
    rw [tokenizer, tokensAux_eq_filter, maximalRuns, hsplit]
    simp
  · have hnil := tokenizer_all_delim shellDelim s h
    refine ⟨hnil, ?_, ?_⟩
    · simp [driver_step, driver_dispatch, hnil]
    · simp [driver_step, driver_dispatch, hnil, spawnsProcess]

/-- Witness for C3 at the concrete all-delimiter line `" \t"`. -/
theorem tokenizer_correct_witness :
    tokenizer " \t".toList shellDelim = [] ∧
    driver_step " \t".toList = .reprompt ∧
    spawnsProcess (driver_step " \t".toList) = false :=
  tokenizer_correct.2.2 " \t".toList (by decide)

/-- Termination state of a child process as the parent observes it through
`wait`/`waitpid`: a normal exit carrying an exit code, or termination by a
signal. -/
inductive Termination
  | exited (code : Nat)
  | signaled (sig : Nat)
deriving DecidableEq

/-- Signal number of the interactive interrupt signal. -/
def SIGINT : Nat := 2

/-- Signal number of the interactive quit signal. -/
def SIGQUIT : Nat := 3

/-- What the parent branch of `exec_dispatch` (tinysh.c) produces: whether
the process-killed-by-the-user message is printed, and the returned status
(0 = EXIT_SUCCESS, -1 = failure). -/
structure DispatchResult where
  killedByUserMsg : Bool
  status : Int
deriving DecidableEq

/-- Embedding of the parent branch of `exec_dispatch` (tinysh.c): after
`wait`, a child terminated by SIGINT or SIGQUIT is announced as killed by
the user and the call returns -1; otherwise it returns EXIT_SUCCESS exactly
when the child exited normally with code EXIT_SUCCESS, and -1 otherwise. -/
def exec_dispatch_parent : Termination → DispatchResult
  | .signaled s =>
    if s = SIGINT ∨ s = SIGQUIT then ⟨true, -1⟩ else ⟨false, -1⟩
  | .exited c => ⟨false, if c = 0 then 0 else -1⟩

/-- Number of `fork` calls `exec_dispatch` itself performs: exactly one. -/
def exec_dispatch_forks : Nat := 1

/-- C9: the dispatcher spawns one child and blocks on it; the translated
status is Success (0) exactly when the child exited normally with code zero;
termination by the interactive interrupt or quit signal is reported with the
distinguished killed-by-user message (and status -1), while an ordinary
non-zero exit yields status -1 with no such message. -/
theorem exec_dispatch_status_correct :
    ∀ t : Termination,
      exec_dispatch_forks = 1 ∧
      ((exec_dispatch_parent t).status = 0 ↔ t = .exited 0) ∧
      ((exec_dispatch_parent t).killedByUserMsg = true ↔
        t = .signaled SIGINT ∨ t = .signaled SIGQUIT) ∧
      (∀ c : Nat, c ≠ 0 → exec_dispatch_parent (.exited c) = ⟨false, -1⟩) := by
  intro t
  refine ⟨rfl, ?_, ?_, fun c hc => by simp [exec_dispatch_parent, hc]⟩
  · cases t with
    | exited c =>
      by_cases hc : c = 0 <;> simp [exec_dispatch_parent, hc]
    | signaled s =>
      by_cases hs : s = SIGINT ∨ s = SIGQUIT <;> simp [exec_dispatch_parent, hs]
  · cases t with
    | exited c => simp [exec_dispatch_parent]
    | signaled s =>
      by_cases hs : s = SIGINT ∨ s = SIGQUIT
      · rw [show exec_dispatch_parent (.signaled s) = ⟨true, -1⟩ from by
          simp [exec_dispatch_parent, if_pos hs]]
        constructor
        · intro _
          rcases hs with h | h
          · exact Or.inl (by rw [h])
          · exact Or.inr (by rw [h])
        · intro _
          rfl
      · rw [show exec_dispatch_parent (.signaled s) = ⟨false, -1⟩ from by
          simp only [exec_dispatch_parent, if_neg hs]]
        constructor
        · intro h
          exact (Bool.false_ne_true h).elim
        · intro h
          exfalso
          apply hs
          rcases h with h | h
          · exact Or.inl (Termination.signaled.inj h)
          · exact Or.inr (Termination.signaled.inj h)

/-- Witness for C9: a child exiting with code 1 (an ordinary failure) yields
status -1 and no killed-by-user message. -/
theorem exec_dispatch_status_correct_witness :
    exec_dispatch_parent (.exited 1) = ⟨false, -1⟩ :=
  (exec_dispatch_status_correct (.exited 1)).2.2.2 1 (by decide)

/-- Outcome of a Launcher call: either `execvp` succeeded and the process
image was replaced with the executable at the given candidate path (the call
never returns), or the call returns -1 after reporting. -/
inductive ExecOutcome
  | replaced (path : String)
  | failed
deriving DecidableEq

/-- Embedding of the configured-path branch of `exec` (tinysh.c, `path_flag`
set), parameterized by the oracle `execOk` saying which candidate paths
`execvp` can execute.  The loop takes the next entry of the `path` array,
appends `cmd[0]` onto that entry in place (`strcat(curr_path, cmd[0])`), and
calls `execvp` on it; when `execvp` fails the function reports and returns
-1 at once, so no later entry is ever examined.  The result pairs the `path`
array as the call leaves it with the outcome; an empty array falls through
the loop to the invalid-command report. -/
def exec_configured (execOk : String → Bool) (paths : List String)
    (cmd : List String) : List String × ExecOutcome :=
  match paths with
  | [] => ([], .failed)
  | p :: rest =>
    let cand := p ++ cmd.headD ""
    (cand :: rest, if execOk cand then .replaced cand else .failed)

/-- Embedding of the fork performed by `exec_dispatch` as it affects the
`path` array: the child runs the Launcher on a copy of the shell's address
space, so the shell's own array is returned unchanged while the outcome is
whatever the child's Launcher call produced. -/
def exec_dispatch_paths (execOk : String → Bool) (paths : List String)
    (cmd : List String) : List String × ExecOutcome :=
  (paths, (exec_configured execOk paths cmd).2)

/-- Counterexample to C6: a Launcher invocation in configured-path mode does
modify a directory string of the PathList — `strcat(curr_path, cmd[0])`
appends the program name onto the first directory entry in place, so running
`ls` against the PathList `["/bin/"]` leaves the array as `["/bin/ls"]`. -/
theorem pathlist_mutated_counterexample :
    (exec_configured (fun _ => false) ["/bin/"] ["ls"]).1 = ["/bin/ls"] ∧
    ["/bin/ls"] ≠ ["/bin/"] := by
  constructor
  · rfl
  · decide

/-- C6 amended: the shell process's PathList is unmodified by dispatching
commands, because the Launcher only ever runs inside the forked child; the
Launcher invocation itself, however, mutates its copy by appending `argv[0]`
onto the first directory string in place. -/
theorem pathlist_fork_isolation :
    ∀ (execOk : String → Bool) (paths cmd : List String),
      (exec_dispatch_paths execOk paths cmd).1 = paths ∧
      (∀ p rest, paths = p :: rest →
        (exec_configured execOk paths cmd).1 = (p ++ cmd.headD "") :: rest) := by
  intro execOk paths cmd
  refine ⟨rfl, fun p rest hp => ?_⟩
  subst hp
  rfl

/-- Witness for C6 (amended) at the PathList `["/bin/"]` and command
`["ls"]`. -/
theorem pathlist_fork_isolation_witness :
    (exec_dispatch_paths (fun _ => false) ["/bin/"] ["ls"]).1 = ["/bin/"] ∧
    (exec_configured (fun _ => false) ["/bin/"] ["ls"]).1 = ["/bin/ls"] := by
  have h := pathlist_fork_isolation (fun _ => false) ["/bin/"] ["ls"]
  exact ⟨h.1, h.2 "/bin/" [] rfl⟩

/-- C7: in configured-path mode the Launcher forms its candidate by
concatenating the directory entry with `argv[0]` and attempts the image
replacement; on the first `execvp` error it reports failure at once — the
outcome never depends on the later directories, and in particular a
"not found" on the first candidate is not retried against a subsequent
directory that would succeed. -/
theorem exec_configured_no_fallback :
    ∀ (execOk : String → Bool) (p : String) (rest rest' cmd : List String),
      ((exec_configured execOk (p :: rest) cmd).2 =
        if execOk (p ++ cmd.headD "") then .replaced (p ++ cmd.headD "")
        else .failed) ∧
      ((exec_configured execOk (p :: rest) cmd).2 =
        (exec_configured execOk (p :: rest') cmd).2) ∧
      (execOk (p ++ cmd.headD "") = false →
        (exec_configured execOk (p :: rest) cmd).2 = .failed) := by
  intro execOk p rest rest' cmd
  refine ⟨rfl, rfl, fun h => ?_⟩
  have h1 : (exec_configured execOk (p :: rest) cmd).2 =
      if execOk (p ++ cmd.headD "") then ExecOutcome.replaced (p ++ cmd.headD "")
      else .failed := rfl
  rw [h1, if_neg (by rw [h]; exact Bool.false_ne_true)]

/-- Witness for C7: with candidates resolved by an oracle that accepts only
`"/usr/ls"`, the first directory `"/bin/"` fails and the outcome is failure
even though the second directory `"/usr/"` would have produced a working
candidate. -/
theorem exec_configured_no_fallback_witness :
    (exec_configured (fun s => s == "/usr/ls") ["/bin/", "/usr/"] ["ls"]).2 =
      .failed ∧
    (fun s => s == "/usr/ls") ("/usr/" ++ "ls") = true := by
  constructor
  · exact (exec_configured_no_fallback (fun s => s == "/usr/ls") "/bin/" ["/usr/"]
      [] ["ls"]).2.2 (by decide)
  · decide

/-- Report produced by the environment-path branch of `exec` (tinysh.c,
`path_flag` unset) when `execvp` fails: whether `perror` (the raw system
error) was called, whether the not-a-valid-command message was printed, and
the returned value.  In the source, `perror` runs only when `errno` is not
ENOENT, the message prints only under `verbose_flag`, and the function
returns -1. -/
structure ExecEnvReport where
  rawSystemError : Bool
  notFoundMsg : Bool
  retval : Int
deriving DecidableEq

/-- Embedding of the failure path of `exec` in environment mode (tinysh.c):
`execvp(cmd[0], cmd)` has failed with the given `errno` condition. -/
def exec_env_failure (verbose : Bool) (errnoENOENT : Bool) : ExecEnvReport :=
  { rawSystemError := !errnoENOENT, notFoundMsg := verbose, retval := -1 }

/-- Embedding of the `_Exit` call ending the child branch of `exec_dispatch`
(tinysh.c): the child exits with EXIT_SUCCESS (0) when the handler status is
not -1 and EXIT_FAILURE (1) otherwise. -/
def child_exit_code (handlerStatus : Int) : Nat :=
  if handlerStatus = -1 then 1 else 0

/-- Whether a driver action leaves the interactive loop running; only the
`exit` builtin (and end of input) sets the exit flag, so every dispatched
command is followed by a fresh prompt. -/
def continuesLoop : DriverAction → Bool
  | .exitShell => false
  | _ => true

/-- Counterexample to C8: in brief (non-verbose) mode, a resolution failure
(`execvp` failing with ENOENT) prints nothing at all — the claimed
"not found"-style message is not printed, it only appears in verbose mode. -/
theorem resolution_failure_brief_counterexample :
    (exec_env_failure false true).notFoundMsg = false ∧
    (exec_env_failure false true).rawSystemError = false := by
  constructor <;> rfl

/-- C8 amended: a resolution failure (ENOENT) is reported quietly and
distinctly from other execution errors — `perror` is suppressed exactly for
ENOENT, and the "not found"-style message is printed exactly when verbose
mode is on (so brief mode prints nothing); the child then exits with
EXIT_FAILURE, the dispatcher reports overall status -1 (Failure) with no
killed-by-user message, and the driver loop continues to the next prompt. -/
theorem resolution_failure_reporting :
    ∀ (verbose : Bool) (cmds : List String),
      (exec_env_failure verbose true).rawSystemError = false ∧
      (exec_env_failure verbose false).rawSystemError = true ∧
      (exec_env_failure verbose true).notFoundMsg = verbose ∧
      exec_dispatch_parent
        (.exited (child_exit_code (exec_env_failure verbose true).retval)) =
        ⟨false, -1⟩ ∧
      continuesLoop (.dispatch cmds) = true := by
  intro verbose cmds
  refine ⟨rfl, rfl, rfl, ?_, rfl⟩
  rfl

/-- Descriptors the handlers manipulate. -/
inductive Descriptor
  | stdinFD
  | stdoutFD
  | savedStdout
  | outFile
  | pipeRead
  | pipeWrite
deriving DecidableEq

/-- Events a handler performs, listed in program order. -/
inductive HandlerEvent
  | createPipe
  | forkChild
  | waitChild
  | openTrunc (path : String)
  | openAppend (path : String)
  | dupOnto (src dst : Descriptor)
  | closeFD (d : Descriptor)
  | saveStdout
  | execCmd (argv : List String)
  | recurseSpecial (argv : List String)
deriving DecidableEq

/-- Whether an event is a recursion into `special_command` (and thus into a
matching handler). -/
def HandlerEvent.isRecurse : HandlerEvent → Bool
  | .recurseSpecial _ => true
  | _ => false

/-- Embedding of the child branch of `overwrite_handle` (current tinysh.c):
open `tail[0]` with create+write+truncate, save stdout in verbose mode,
duplicate the file descriptor onto stdout, close it, and invoke the Launcher
on `head`.  The tail is never re-classified and no handler is re-entered. -/
def overwrite_child_events (verbose : Bool) (head tail : List String) :
    List HandlerEvent :=
  [.openTrunc (tail.headD "")] ++
  (if verbose then [.saveStdout] else []) ++
  [.dupOnto .outFile .stdoutFD, .closeFD .outFile, .execCmd head]

/-- Embedding of the child branch of `append_handle` (current tinysh.c):
identical to the overwrite child except the file is opened with
create+write+append. -/
def append_child_events (verbose : Bool) (head tail : List String) :
    List HandlerEvent :=
  [.openAppend (tail.headD "")] ++
  (if verbose then [.saveStdout] else []) ++
  [.dupOnto .outFile .stdoutFD, .closeFD .outFile, .execCmd head]

/-- Embedding of the child branch of `overwrite_handle` in the older src
variant of tinysh.c (which creates a pipe before forking): open `tail[0]`
truncating, save stdout in verbose mode, duplicate it onto stdout, close the
pipe's read end; then, when the tail re-classifies as containing an
operator, duplicate the pipe's write end onto stdout, open `tail[2]`
truncating and duplicate it onto stdout — still launching `head` inline
rather than recursing into any handler. -/
def overwrite_child_events_v0 (verbose : Bool) (head tail : List String) :
    List HandlerEvent :=
  [.openTrunc (tail.headD "")] ++
  (if verbose then [.saveStdout] else []) ++
  [.dupOnto .outFile .stdoutFD, .closeFD .pipeRead] ++
  (if 0 < is_special_feature tail then
    [.dupOnto .pipeWrite .stdoutFD, .openTrunc (tail.getD 2 ""),
     .dupOnto .outFile .stdoutFD, .execCmd head]
  else [.execCmd head])

/-- Counterexample to C5: for the tail `["f", ">", "g"]`, which re-classifies
as an overwrite redirection, neither the overwrite nor the append handler
(nor the older overwrite variant) ever recurses into a handler for the tail
— no event in their traces is a `special_command` recursion. -/
theorem redirect_handlers_no_recursion_counterexample :
    0 < is_special_feature ["f", ">", "g"] ∧
    (overwrite_child_events false ["a"] ["f", ">", "g"]).all
      (fun e => ! e.isRecurse) = true ∧
    (append_child_events false ["a"] ["f", ">", "g"]).all
      (fun e => ! e.isRecurse) = true ∧
    (overwrite_child_events_v0 false ["a"] ["f", ">", "g"]).all
      (fun e => ! e.isRecurse) = true := by
  refine ⟨by decide, by decide, by decide, by decide⟩

/-- C5 amended: the overwrite and append redirection handlers never recurse
into a further handler, for any tail: their child traces contain no
`special_command` recursion and always end by launching the head command
(the older variant instead wires the pipe's write end and `tail[2]` inline
when the tail re-classifies, equally without recursing). -/
theorem redirect_handlers_never_recurse :
    ∀ (verbose : Bool) (head tail : List String),
      ((overwrite_child_events verbose head tail).all
        (fun e => ! e.isRecurse) = true) ∧
      ((append_child_events verbose head tail).all
        (fun e => ! e.isRecurse) = true) ∧
      ((overwrite_child_events_v0 verbose head tail).all
        (fun e => ! e.isRecurse) = true) ∧
      HandlerEvent.execCmd head ∈ overwrite_child_events verbose head tail ∧
      HandlerEvent.execCmd head ∈ append_child_events verbose head tail := by
  intro verbose head tail
  refine ⟨?_, ?_, ?_, ?_, ?_⟩
  · cases verbose <;> simp [overwrite_child_events, HandlerEvent.isRecurse]
  · cases verbose <;> simp [append_child_events, HandlerEvent.isRecurse]
  · cases verbose <;>
      by_cases h : 0 < is_special_feature tail <;>
      simp [overwrite_child_events_v0, HandlerEvent.isRecurse, h]
  · cases verbose <;> simp [overwrite_child_events]
  · cases verbose <;> simp [append_child_events]

lemma split_tail_length_lt (cmd : List String) (h : is_special_feature cmd ≠ 0) :
    (split_tail cmd).length < cmd.length := by
  induction cmd with
  | nil => simp [is_special_feature] at h
  | cons t rest ih =>
    cases ht : isOperator t with
    | true =>
      rw [split_tail_cons_op rest ht]
      simp
    | false =>
      rw [split_tail_cons_not_op rest ht]
      have h' : is_special_feature rest ≠ 0 := by
        rwa [is_special_feature_cons_not_op rest ht] at h
      simpa using Nat.lt_succ_of_lt (ih h')

/-- Counts of the `fork` and `pipe` calls a handler chain performs. -/
structure HandlerTrace where
  forks : Nat
  pipes : Nat
deriving DecidableEq

/-- Embedding of the process and pipe accounting of `special_command` and
the handlers it dispatches to (current tinysh.c).  For a pipe command (code
3), `pipe_handle` creates one pipe and forks exactly one child, which
launches the head; the parent then recurses into `special_command` on the
tail exactly when the tail re-classifies as containing an operator, and
otherwise replaces its own process image with the tail command, forking
nothing further.  The overwrite and append handlers (codes 1 and 2) each
fork one child and create no pipe; code 0 reaches no handler. -/
def special_trace (cmd : List String) : HandlerTrace :=
  if h3 : is_special_feature cmd = 3 then
    if is_special_feature (split_tail cmd) ≠ 0 then
      ⟨1 + (special_trace (split_tail cmd)).forks,
       1 + (special_trace (split_tail cmd)).pipes⟩
    else ⟨1, 1⟩
  else if is_special_feature cmd = 0 then ⟨0, 0⟩
  else ⟨1, 0⟩
termination_by cmd.length
decreasing_by
  all_goals
    simp_wf
    exact split_tail_length_lt cmd (by rw [h3]; norm_num)

/-- A pipeline command vector: the stage vectors joined by `"|"` tokens. -/
def mkPipeline : List (List String) → List String
  | [] => []
  | [a] => a
  | a :: b :: rest => a ++ "|" :: mkPipeline (b :: rest)

lemma mkPipeline_cons (a b : List String) (rest : List (List String)) :
    mkPipeline (a :: b :: rest) = a ++ "|" :: mkPipeline (b :: rest) := rfl

lemma special_trace_pipeline (stages : List (List String)) (hne : stages ≠ [])
    (hok : ∀ a ∈ stages, ∀ t ∈ a, isOperator t = false) :
    special_trace (mkPipeline stages) =
      ⟨stages.length - 1, stages.length - 1⟩ := by
  induction stages with
  | nil => exact absurd rfl hne
  | cons a rest ih =>
    cases rest with
    | nil =>
      have hz : is_special_feature (mkPipeline [a]) = 0 :=
        (is_special_feature_eq_zero_iff a).mpr (hok a (by simp))
      rw [special_trace]
      rw [dif_neg (by rw [hz]; norm_num), if_pos hz]
      simp
    | cons b rest2 =>
      have hpre : ∀ t ∈ a, isOperator t = false := hok a (by simp)
      have h3 : is_special_feature (mkPipeline (a :: b :: rest2)) = 3 := by
        rw [mkPipeline_cons,
          is_special_feature_append a "|" (mkPipeline (b :: rest2)) hpre (by decide)]
        decide
      have htail :
          split_tail (mkPipeline (a :: b :: rest2)) = mkPipeline (b :: rest2) := by
        rw [mkPipeline_cons]
        exact split_tail_append a "|" (mkPipeline (b :: rest2)) hpre (by decide)
      have ihr : special_trace (mkPipeline (b :: rest2)) =
          ⟨(b :: rest2).length - 1, (b :: rest2).length - 1⟩ :=
        ih (by simp) fun x hx => hok x (List.mem_cons_of_mem _ hx)
      rw [special_trace, dif_pos h3, htail]
      cases rest2 with
      | nil =>
        have hzb : is_special_feature (mkPipeline [b]) = 0 :=
          (is_special_feature_eq_zero_iff b).mpr
            (hok b (List.mem_cons_of_mem _ (by simp)))
        rw [if_neg (by rw [hzb]; norm_num)]
        simp
      | cons c rest3 =>
        have h3b : is_special_feature (mkPipeline (b :: c :: rest3)) = 3 := by
          rw [mkPipeline_cons,
            is_special_feature_append b "|" (mkPipeline (c :: rest3))
              (hok b (List.mem_cons_of_mem _ (by simp))) (by decide)]
          decide
        rw [if_pos (by rw [h3b]; norm_num), ihr]
        simp only [List.length_cons, HandlerTrace.mk.injEq]
        omega

/-- Embedding of the child branch of `pipe_handle` (current tinysh.c): close
the unused read end, save stdout in verbose mode, duplicate the write end
onto stdout, close the write end, and launch the head. -/
def pipe_child_events (verbose : Bool) (head : List String) :
    List HandlerEvent :=
  [.closeFD .pipeRead] ++
  (if verbose then [.saveStdout] else []) ++
  [.dupOnto .pipeWrite .stdoutFD, .closeFD .pipeWrite, .execCmd head]

/-- Embedding of the parent branch of `pipe_handle` (current tinysh.c): wait
for the head child, duplicate the pipe's read end onto stdin, close the read
end, close the write end, then recurse into `special_command` on the tail
when it re-classifies and otherwise replace this very process's image with
the tail command — the parent never forks. -/
def pipe_parent_events (tail : List String) : List HandlerEvent :=
  [.waitChild, .dupOnto .pipeRead .stdinFD, .closeFD .pipeRead,
   .closeFD .pipeWrite] ++
  (if 0 < is_special_feature tail then [.recurseSpecial tail]
   else [.execCmd tail])

/-- C1: the pipe handler creates exactly one pipe and forks exactly one
child per stage boundary; its parent branch never forks, and after waiting,
rewiring stdin and closing both pipe descriptors it either recurses into a
handler for the tail (when the tail re-classifies) or replaces its own image
with the tail command; consequently a pipeline of N operator-free stages is
run on exactly N spawned processes (`exec_dispatch`'s one fork plus the
N - 1 forks of the chained pipe handlers) chained by N - 1 pipes. -/
theorem pipeline_process_and_pipe_count :
    (∀ tail : List String,
      HandlerEvent.forkChild ∉ pipe_parent_events tail ∧
      (0 < is_special_feature tail →
        HandlerEvent.recurseSpecial tail ∈ pipe_parent_events tail) ∧
      (is_special_feature tail = 0 →
        HandlerEvent.execCmd tail ∈ pipe_parent_events tail)) ∧
    (∀ stages : List (List String), 2 ≤ stages.length →
      (∀ a ∈ stages, ∀ t ∈ a, isOperator t = false) →
      exec_dispatch_forks + (special_trace (mkPipeline stages)).forks =
        stages.length ∧
      (special_trace (mkPipeline stages)).pipes = stages.length - 1) := by
  constructor
  · intro tail
    refine ⟨?_, fun h => ?_, fun h => ?_⟩
    · by_cases h : 0 < is_special_feature tail <;>
        simp [pipe_parent_events, h]
    · simp [pipe_parent_events, h]
    · have h' : ¬ 0 < is_special_feature tail := by omega
      simp [pipe_parent_events, h']
  · intro stages h2 hok
    have hne : stages ≠ [] := by
      intro hs
      rw [hs] at h2
      simp at h2
    rw [special_trace_pipeline stages hne hok]
    refine ⟨?_, rfl⟩
    show exec_dispatch_forks + (stages.length - 1) = stages.length
    unfold exec_dispatch_forks
    omega

/-- Witness for C1 at the three-stage pipeline `a | b | c`: three spawned
processes and two pipes. -/
theorem pipeline_process_and_pipe_count_witness :
    exec_dispatch_forks +
      (special_trace (mkPipeline [["a"], ["b"], ["c"]])).forks = 3 ∧
    (special_trace (mkPipeline [["a"], ["b"], ["c"]])).pipes = 3 - 1 :=
  pipeline_process_and_pipe_count.2 [["a"], ["b"], ["c"]] (by decide) (by decide)

/-- The vector on which the child of `exec_dispatch` first hands the head
position to the Launcher: the whole command when no operator is present (the
child calls `exec(cmd)` directly), and otherwise the head that
`special_command` splits off (each handler's head child calls
`exec(head)`). -/
def head_exec_vector (cmds : List String) : List String :=
  if is_special_feature cmds = 0 then cmds else split_head cmds

/-- Counterexample to C10: the driver accepts the line `"| b"` (its token
list is nonempty and its first token is no builtin), dispatching
`["|", "b"]`; but the head vector the splitter produces — and hands to
`exec` inside `pipe_handle`'s child — is empty. -/
theorem launcher_empty_head_counterexample :
    driver_step "| b".toList = .dispatch ["|", "b"] ∧
    is_special_feature ["|", "b"] = 3 ∧
    head_exec_vector ["|", "b"] = [] := by
  refine ⟨by decide, by decide, by decide⟩

/-- C10 amended: every command list the driver dispatches is non-empty with
element 0 the first token of the line; and whenever that first token is not
an operator, the head vector handed to `exec` is non-empty and its element 0
is the program name — but a line whose first token is an operator (such as
`"|"`) yields an empty head vector. -/
theorem launcher_vector_nonempty :
    ∀ (input : List Char) (cmds : List String),
      driver_step input = .dispatch cmds →
      cmds ≠ [] ∧
      (isOperator (cmds.headD "") = false →
        head_exec_vector cmds ≠ [] ∧
        (head_exec_vector cmds).headD "" = cmds.headD "") := by
  intro input cmds h
  rw [driver_step] at h
  revert h
  cases (tokenizer input shellDelim).map (fun t => String.mk t) with
  | nil =>
    intro h
    cases h
  | cons c rest =>
    intro h
    rw [driver_dispatch] at h
    by_cases h1 : c = "exit"
    · rw [if_pos h1] at h; cases h
    rw [if_neg h1] at h
    by_cases h2 : c = "verbose"
    · rw [if_pos h2] at h; cases h
    rw [if_neg h2] at h
    by_cases h3 : c = "brief"
    · rw [if_pos h3] at h; cases h
    rw [if_neg h3] at h
    by_cases h4 : c = "pwd"
    · rw [if_pos h4] at h; cases h
    rw [if_neg h4] at h
    by_cases h5 : c = "cd"
    · rw [if_pos h5] at h; cases h
    rw [if_neg h5] at h
    have hc : cmds = c :: rest := (DriverAction.dispatch.inj h).symm
    subst hc
    refine ⟨by simp, fun hop => ?_⟩
    have hop' : isOperator c = false := by simpa using hop
    have hh : split_head (c :: rest) = c :: split_head rest :=
      split_head_cons_not_op rest hop'
    unfold head_exec_vector
    by_cases hz : is_special_feature (c :: rest) = 0
    · rw [if_pos hz]
      exact ⟨by simp, rfl⟩
    · rw [if_neg hz, hh]
      exact ⟨by simp, rfl⟩

/-- Witness for C10 (amended) at the accepted line `"ls -la"`. -/
theorem launcher_vector_nonempty_witness :
    ["ls", "-la"] ≠ ([] : List String) ∧
    (head_exec_vector ["ls", "-la"] ≠ [] ∧
      (head_exec_vector ["ls", "-la"]).headD "" = (["ls", "-la"] : List String).headD "") := by
  have h := launcher_vector_nonempty "ls -la".toList ["ls", "-la"] (by decide)
  exact ⟨h.1, h.2 (by decide)⟩

end Tinysh
